import Mathlib

/-!
# Verification of the `genai` streaming-response aggregator and dispatcher

A shallow embedding of the streaming-response merge logic, blocked-response
policy, wire-format part decoding and error normalization of the
google/generative-ai-go client library, together with theorems checking the
library's specified behavior against this embedding.

Go pointer values are embedded as `Option`; in-place mutation is embedded as
functional update; a Go `panic` during decoding is embedded as `none`.
-/

set_option autoImplicit false

namespace Genai

/-- Inline MIME-typed bytes (`genai.Blob`); bytes are embedded as `List Nat`. -/
structure Blob where
  mimeType : String
  data : List Nat
  deriving Repr, DecidableEq

/-- A URI reference with MIME type (`genai.FileData`). -/
structure FileData where
  mimeType : String
  uri : String
  deriving Repr, DecidableEq

/-- A function call produced by the model (`genai.FunctionCall`); the
structured arguments are embedded as association lists. -/
structure FunctionCall where
  name : String
  args : List (String × String)
  deriving Repr, DecidableEq

/-- A `genai.Part`: the tagged union of content-part variants declared by the
library (`Text`, `Blob`, `FileData`, `FunctionCall`, `FunctionResponse`,
`ExecutableCode`, `CodeExecutionResult`). -/
inductive Part where
  | text (s : String)
  | blob (b : Blob)
  | fileData (f : FileData)
  | functionCall (f : FunctionCall)
  | functionResponse (name : String) (response : List (String × String))
  | executableCode (language : String) (code : String)
  | codeExecutionResult (outcome : Nat) (output : String)
  deriving Repr, DecidableEq

/-- Whether a part is a plain `Text` part (Go: the `in[i].(Text)` type assertion). -/
def Part.isText : Part → Bool
  | .text _ => true
  | _ => false

/-- `genai.Content`: a role tag plus an ordered sequence of parts. -/
structure Content where
  role : String
  parts : List Part
  deriving Repr, DecidableEq

/-- `genai.FinishReason` enum. -/
inductive FinishReason where
  | unspecified
  | stop
  | maxTokens
  | safety
  | recitation
  | other
  deriving Repr, DecidableEq

/-- `genai.BlockReason` enum. -/
inductive BlockReason where
  | unspecified
  | safety
  | other
  deriving Repr, DecidableEq

/-- `genai.SafetyRating`. -/
structure SafetyRating where
  category : Nat
  probability : Nat
  blocked : Bool
  deriving Repr, DecidableEq

/-- `genai.PromptFeedback`: per-response prompt-level blocking information. -/
structure PromptFeedback where
  blockReason : BlockReason
  safetyRatings : List SafetyRating
  deriving Repr, DecidableEq

/-- `genai.CitationSource`. -/
structure CitationSource where
  startIndex : Nat
  endIndex : Nat
  uri : String
  license : String
  deriving Repr, DecidableEq

/-- `genai.CitationMetadata`: an appendable list of citation sources. -/
structure CitationMetadata where
  citationSources : List CitationSource
  deriving Repr, DecidableEq

/-- `genai.UsageMetadata`: token-usage counts. -/
structure UsageMetadata where
  promptTokenCount : Nat
  candidatesTokenCount : Nat
  totalTokenCount : Nat
  deriving Repr, DecidableEq

/-- `genai.Candidate`: one alternative answer; `index` (Go `int32`) is the
merge key across partial messages of one stream. -/
structure Candidate where
  index : Int
  content : Option Content
  finishReason : FinishReason
  safetyRatings : List SafetyRating
  citationMetadata : Option CitationMetadata
  deriving Repr, DecidableEq

/-- `genai.GenerateContentResponse`. -/
structure GenerateContentResponse where
  candidates : List Candidate
  promptFeedback : Option PromptFeedback
  usageMetadata : Option UsageMetadata
  deriving Repr, DecidableEq

/-! ## The merge algorithm (`joinResponses` and helpers) -/

/-- The inner loop of Go `mergeTexts`: starting at position `i+1`, collect the
maximal run of consecutive `Text` parts (`for j = i + 1; ...`), returning the
collected strings together with the remainder of the list from the first
non-`Text` part on. -/
def takeTexts : List Part → List String × List Part
  | .text t :: rest =>
    let p := takeTexts rest
    (t :: p.1, p.2)
  | l => ([], l)

theorem takeTexts_length : ∀ l : List Part, (takeTexts l).2.length ≤ l.length
  | [] => Nat.le_refl _
  | .text _ :: rest => by
    simpa [takeTexts] using Nat.le_succ_of_le (takeTexts_length rest)
  | .blob _ :: _ => by simp [takeTexts]
  | .fileData _ :: _ => by simp [takeTexts]
  | .functionCall _ :: _ => by simp [takeTexts]
  | .functionResponse _ _ :: _ => by simp [takeTexts]
  | .executableCode _ _ :: _ => by simp [takeTexts]
  | .codeExecutionResult _ _ :: _ => by simp [takeTexts]

/-- Go `mergeTexts`: scan the list; each maximal run of consecutive `Text`
parts is replaced by a single `Text` part holding `strings.Join(texts, "")`;
every other part is copied through unchanged. -/
def mergeTexts : List Part → List Part
  | [] => []
  | .text t :: rest =>
    .text (String.join (t :: (takeTexts rest).1)) :: mergeTexts (takeTexts rest).2
  | p :: rest => p :: mergeTexts rest
termination_by l => l.length
decreasing_by
  · exact Nat.lt_succ_of_le (takeTexts_length rest)
  · simp

/-- Go `joinParts`: concatenate then collapse text runs. -/
def joinParts (dest src : List Part) : List Part :=
  mergeTexts (dest ++ src)

/-- Go `joinContent` (nil pointers are `none`; roles are assumed equal and the
destination's role is kept). -/
def joinContent : Option Content → Option Content → Option Content
  | none, src => src
  | some dest, none => some dest
  | some dest, some src => some { dest with parts := joinParts dest.parts src.parts }

/-- Go `joinCitationMetadata`: nil-propagating append of citation sources. -/
def joinCitationMetadata : Option CitationMetadata → Option CitationMetadata → Option CitationMetadata
  | none, src => src
  | some dest, none => some dest
  | some dest, some src =>
    some { dest with citationSources := dest.citationSources ++ src.citationSources }

/-- Go's `indexToSrcCandidate` map build: inserting the source candidates in
order, a later candidate with the same index overwrites an earlier one, so
lookup returns the last candidate in `src` carrying index `i` (or `none`). -/
def indexToSrcCandidate (src : List Candidate) (i : Int) : Option Candidate :=
  src.foldl (fun acc s => if s.index = i then some s else acc) none

/-- The body of Go `joinCandidateLists`'s loop for one destination candidate
`d` and the matching source candidate `s`: content is joined, finish reason and
safety ratings take the latest value, citation metadata is appended. -/
def joinCandidate (d s : Candidate) : Candidate :=
  { d with
    content := joinContent d.content s.content
    finishReason := s.finishReason
    safetyRatings := s.safetyRatings
    citationMetadata := joinCitationMetadata d.citationMetadata s.citationMetadata }

/-- Go `joinCandidateLists`: each destination candidate is merged with the
source candidate of the same index when one exists; source candidates whose
index does not occur in the destination list are dropped. -/
def joinCandidateLists (dest src : List Candidate) : List Candidate :=
  dest.map fun d =>
    match indexToSrcCandidate src d.index with
    | some s => joinCandidate d s
    | none => d

/-- Go `joinResponses`: when the cumulative response `dest` is nil the incoming
message becomes it verbatim; otherwise only the candidate list is rebuilt
(`// Keep dest.PromptFeedback.` and the unimplemented
`// TODO: Take the last UsageMetadata.` leave the other fields untouched). -/
def joinResponses : Option GenerateContentResponse → GenerateContentResponse → GenerateContentResponse
  | none, src => src
  | some dest, src => { dest with candidates := joinCandidateLists dest.candidates src.candidates }

/-! ## Blocked-response policy (`protoToResponse` and `BlockedError`) -/

/-- `genai.BlockedError`: the model's response was blocked, either because of
the prompt (`promptFeedback` set) or because of a candidate (`candidate` set). -/
structure BlockedError where
  candidate : Option Candidate
  promptFeedback : Option PromptFeedback
  deriving Repr, DecidableEq

/-- Go `gcp.PromptFeedback != nil && gcp.PromptFeedback.BlockReason != BlockReasonUnspecified`. -/
def blockedByPrompt (gcp : GenerateContentResponse) : Bool :=
  match gcp.promptFeedback with
  | some pf => pf.blockReason != BlockReason.unspecified
  | none => false

/-- Go `protoToResponse`'s candidate loop: the first candidate whose finish
reason is `FinishReasonSafety`, if any. -/
def findBlockedCandidate : List Candidate → Option Candidate
  | [] => none
  | c :: rest =>
    if c.finishReason = FinishReason.safety then some c else findBlockedCandidate rest

/-- Go `protoToResponse` restricted to its blocking policy: the proto-to-struct
field mapping is the identity in this embedding, and the function then fails
with a `BlockedError` on a set, non-unspecified prompt-feedback block reason,
or else on the first safety-blocked candidate. -/
def protoToResponse (gcp : GenerateContentResponse) :
    Except BlockedError GenerateContentResponse :=
  if blockedByPrompt gcp then
    .error { candidate := none, promptFeedback := gcp.promptFeedback }
  else
    match findBlockedCandidate gcp.candidates with
    | some c => .error { candidate := some c, promptFeedback := none }
    | none => .ok gcp

/-! ## Wire-format part decoding (`partFromProto`) -/

/-- The `pb.Part.Data` wire union (`generativelanguagepb`): the declared
variant set of a part on the wire. -/
inductive PBPartData where
  | text (s : String)
  | inlineData (mimeType : String) (data : List Nat)
  | fileData (mimeType : String) (uri : String)
  | functionCall (name : String) (args : List (String × String))
  | functionResponse (name : String) (response : List (String × String))
  deriving Repr, DecidableEq

/-- Go `partFromProto`: the type switch handles only the `Text` and
`InlineData` variants; every other variant hits the `default` branch, which is
`panic(fmt.Errorf("unknown Part.Data type %T", p.Data))` — embedded as `none`. -/
def partFromProto : PBPartData → Option Part
  | .text s => some (.text s)
  | .inlineData m d => some (.blob { mimeType := m, data := d })
  | _ => none

/-! ## The streaming iterator (`GenerateContentResponseIterator.Next`) -/

/-- The distinct Go error values that flow through the iterator: `io.EOF`,
the `iterator.Done` sentinel, some other transport error from `Recv`, or a
`BlockedError` from `protoToResponse`. -/
inductive GoError where
  | eof
  | done
  | transport (code : Nat)
  | blocked (b : BlockedError)
  deriving Repr, DecidableEq

/-- One event the gRPC stream can deliver to `Recv`: a successfully received
message (already mapped through the identity proto conversion) or a receive
error. An exhausted event list stands for `Recv` returning `io.EOF`. -/
inductive RecvEvent where
  | msg (r : GenerateContentResponse)
  | recvErr (code : Nat)
  deriving Repr, DecidableEq

/-- A chat history: the ordered turns of a conversational exchange, each turn
being the candidate list appended at one stream completion. -/
abbrev ChatHistory := List (List Candidate)

/-- Modelled from the spec: `ChatSession.addToHistory` is not under `src/`
(only its call site in `GenerateContentResponseIterator.Next` is). The spec
says the finalized cumulative response's candidate content is appended, as a
single new turn, to the exchange's ordered history. -/
def addToHistory (h : ChatHistory) (cands : List Candidate) : ChatHistory :=
  h ++ [cands]

/-- The state of a `genai.GenerateContentResponseIterator`: the unread suffix
of the stream (`sc`), the sticky error (`err`), the merged cumulative response
(`merged`) and the optional owning chat session's history (`cs`). -/
structure IterState where
  stream : List RecvEvent
  err : Option GoError
  merged : Option GenerateContentResponse
  cs : Option ChatHistory
  deriving Repr, DecidableEq

/-- Go `GenerateContentResponseIterator.Next`, one call: returns the pair
`(response, error)` Go returns, together with the mutated iterator state. -/
def iterNext (iter : IterState) :
    (Option GenerateContentResponse × Option GoError) × IterState :=
  match iter.err with
  | some e => ((none, some e), iter)
  | none =>
    match iter.stream with
    | [] =>
      -- Recv returned io.EOF: record it in iter.err, append to the chat
      -- history when both a session and a merged response exist, and
      -- return the iterator.Done sentinel.
      let st := { iter with err := some .eof }
      let st :=
        match st.cs, st.merged with
        | some h, some m => { st with cs := some (addToHistory h m.candidates) }
        | _, _ => st
      ((none, some .done), st)
    | .recvErr code :: rest =>
      ((none, some (.transport code)),
        { iter with stream := rest, err := some (.transport code) })
    | .msg resp :: rest =>
      match protoToResponse resp with
      | .error b =>
        ((none, some (.blocked b)),
          { iter with stream := rest, err := some (.blocked b) })
      | .ok gcp =>
        ((some gcp, none),
          { iter with stream := rest, merged := some (joinResponses iter.merged gcp) })

end Genai

namespace Gensupport

/-! ## Error normalization (`gensupport.WrapError`) -/

/-- The machine-readable reason/domain detail of a structured service error
(`google.rpc.ErrorInfo`). -/
structure ErrorInfo where
  reason : String
  domain : String
  deriving Repr, DecidableEq

/-- `apierror.APIError`: the normalized error value produced by
`apierror.ParseError`, carrying the structured detail. -/
structure APIError where
  info : ErrorInfo
  deriving Repr, DecidableEq

/-- `googleapi.Error`: an HTTP error whose `Body` may parse into structured
detail (`details`, `none` when the body holds no parseable payload), and which
after `Wrap` carries the wrapped `APIError`. -/
structure GoogleapiError where
  code : Nat
  message : String
  details : Option ErrorInfo
  wrappedAPIError : Option APIError
  deriving Repr, DecidableEq

/-- The errors reaching `WrapError`: a `googleapi.Error`, a gRPC status error
(which `apierror.ParseError` also accepts but `errors.As` does not match as a
`googleapi.Error`), or any other plain error. -/
inductive SupportError where
  | googleapi (he : GoogleapiError)
  | grpcStatus (code : Nat) (info : Option ErrorInfo)
  | plain (msg : String)
  deriving Repr, DecidableEq

/-- The external `apierror.ParseError(err, false)`: succeeds exactly when the
error carries a structured service-side payload — a `googleapi.Error` whose
body parses into reason/domain details, or a gRPC status carrying them. -/
def apierrorParseError : SupportError → Option APIError
  | .googleapi he => he.details.map fun i => { info := i }
  | .grpcStatus _ info => info.map fun i => { info := i }
  | .plain _ => none

/-- The external `errors.As(err, &herr)` for `*googleapi.Error`. -/
def asGoogleapiError : SupportError → Option GoogleapiError
  | .googleapi he => some he
  | _ => none

/-- Go `herr.Wrap(apiError)`: mutates the `googleapi.Error` in place to wrap
the normalized value. -/
def GoogleapiError.wrap (he : GoogleapiError) (api : APIError) : GoogleapiError :=
  { he with wrappedAPIError := some api }

/-- Go `gensupport.WrapError`: parse the structured payload; when parsing
succeeds and the error is a `googleapi.Error`, wrap the normalized
`apierror.APIError` inside it; in every case return the (possibly mutated)
original error. -/
def WrapError (err : SupportError) : SupportError :=
  match apierrorParseError err, asGoogleapiError err with
  | some apiError, some herr => .googleapi (herr.wrap apiError)
  | _, _ => err

/-! ## The retrying dispatcher (`gensupport.SendRequestWithRetry`) -/

/-- The outcome of one transport attempt, as classified by the dispatcher's
retry predicate. -/
inductive AttemptOutcome where
  | success (code : Nat)
  | retryable (code : Nat)
  | fatal (code : Nat)
  deriving Repr, DecidableEq

/-- The dispatcher's result. -/
inductive SendOutcome where
  | canceled
  | ok (code : Nat)
  | failed (code : Nat)
  | exhausted (code : Nat)
  deriving Repr, DecidableEq

/-- Modelled from the spec: `gensupport.SendRequestWithRetry` is not under
`src/` (only its tests are). The spec's loop: before every attempt honor a
canceled context by returning the cancellation error immediately; otherwise
attempt the call; a retryable failure consults the backoff policy (`none`
means stop, surfacing the last error as exhaustion) and retries; success or a
fatal failure returns immediately. `fuel` bounds the loop; the function
returns the outcome together with the number of transport attempts performed. -/
def sendRequestWithRetry (canceled : Bool) (transport : Nat → AttemptOutcome)
    (pause : Nat → Option Nat) : Nat → Nat → SendOutcome × Nat
  | attempts, 0 => (.exhausted 0, attempts)
  | attempts, fuel + 1 =>
    if canceled then (.canceled, attempts)
    else
      match transport attempts with
      | .success code => (.ok code, attempts + 1)
      | .fatal code => (.failed code, attempts + 1)
      | .retryable code =>
        match pause attempts with
        | none => (.exhausted code, attempts + 1)
        | some _ => sendRequestWithRetry canceled transport pause (attempts + 1) fuel

end Gensupport

namespace Genai

/-! ## Helper lemmas about the merge -/

theorem joinCandidate_index (d s : Candidate) : (joinCandidate d s).index = d.index := rfl

theorem joinCandidateLists_length (dest src : List Candidate) :
    (joinCandidateLists dest src).length = dest.length := by
  simp [joinCandidateLists]

theorem joinCandidateLists_map_index (dest src : List Candidate) :
    (joinCandidateLists dest src).map Candidate.index = dest.map Candidate.index := by
  induction dest with
  | nil => rfl
  | cons d rest ih =>
    simp only [joinCandidateLists, List.map_cons] at ih ⊢
    cases h : indexToSrcCandidate src d.index <;> simp [h, joinCandidate_index, ih]

/-! ## Theorems for the claims -/

/-- C1: the spec claims the cumulative response's `UsageMetadata` is replaced
by the incoming message's value on every streaming merge with non-nil `dest`;
the code instead leaves `dest.usageMetadata` untouched (its own
`// TODO: Take the last UsageMetadata.` records the unimplemented intent), so
a concrete merge keeps the first message's counts and loses the incoming ones. -/
theorem joinResponses_keeps_first_usageMetadata :
    (∀ dest src, (joinResponses (some dest) src).usageMetadata = dest.usageMetadata) ∧
    (joinResponses
        (some { candidates := [], promptFeedback := none,
                usageMetadata := some { promptTokenCount := 1, candidatesTokenCount := 2,
                                        totalTokenCount := 3 } })
        { candidates := [], promptFeedback := none,
          usageMetadata := some { promptTokenCount := 4, candidatesTokenCount := 5,
                                  totalTokenCount := 9 } }).usageMetadata ≠
      some { promptTokenCount := 4, candidatesTokenCount := 5, totalTokenCount := 9 } := by
  exact ⟨fun dest src => rfl, by decide⟩

/-- C4: merging an incoming partial message into a non-nil cumulative response
never adds candidates: the candidate list's length and its list of `Index`
values are both exactly those of the cumulative response, so a source
candidate whose index is not already present is ignored. -/
theorem joinResponses_candidates_never_increase (dest src : GenerateContentResponse) :
    ((joinResponses (some dest) src).candidates.length = dest.candidates.length) ∧
    ((joinResponses (some dest) src).candidates.map Candidate.index =
      dest.candidates.map Candidate.index) := by
  refine ⟨?_, ?_⟩
  · simpa [joinResponses] using joinCandidateLists_length dest.candidates src.candidates
  · simpa [joinResponses] using joinCandidateLists_map_index dest.candidates src.candidates

/-- C5: merging an incoming partial message into a non-nil cumulative response
leaves `PromptFeedback` (the first message's value) untouched, and also leaves
`UsageMetadata` untouched, so `Candidates` is the only response-level field the
merge modifies. -/
theorem joinResponses_keeps_promptFeedback (dest src : GenerateContentResponse) :
    ((joinResponses (some dest) src).promptFeedback = dest.promptFeedback) ∧
    ((joinResponses (some dest) src).usageMetadata = dest.usageMetadata) :=
  ⟨rfl, rfl⟩

theorem blockedByPrompt_true_iff (gcp : GenerateContentResponse) :
    blockedByPrompt gcp = true ↔
      ∃ pf, gcp.promptFeedback = some pf ∧ pf.blockReason ≠ BlockReason.unspecified := by
  cases h : gcp.promptFeedback <;> simp [blockedByPrompt, h]

theorem findBlockedCandidate_eq_none_iff :
    ∀ l : List Candidate, findBlockedCandidate l = none ↔
      ∀ c ∈ l, c.finishReason ≠ FinishReason.safety
  | [] => by simp [findBlockedCandidate]
  | c :: rest => by
    by_cases h : c.finishReason = FinishReason.safety <;>
      simp [findBlockedCandidate, h, findBlockedCandidate_eq_none_iff rest]

theorem findBlockedCandidate_eq_some :
    ∀ l : List Candidate, ∀ c, findBlockedCandidate l = some c →
      c ∈ l ∧ c.finishReason = FinishReason.safety
  | [], c, hc => by simp [findBlockedCandidate] at hc
  | d :: rest, c, hc => by
    by_cases h : d.finishReason = FinishReason.safety
    · simp [findBlockedCandidate, h] at hc
      subst hc
      exact ⟨List.mem_cons_self _ _, h⟩
    · simp only [findBlockedCandidate, if_neg h] at hc
      have := findBlockedCandidate_eq_some rest c hc
      exact ⟨List.mem_cons_of_mem _ this.1, this.2⟩

/-- C2: `protoToResponse` fails with a `BlockedError` (returning no response
value) exactly when the prompt feedback's block reason is set and not
unspecified, or some candidate finished for safety; a blocked prompt yields an
error carrying that prompt feedback, and otherwise the error carries the
offending (safety-finished) candidate. -/
theorem protoToResponse_blocked_iff (gcp : GenerateContentResponse) :
    ((∃ e, protoToResponse gcp = .error e) ↔
      ((∃ pf, gcp.promptFeedback = some pf ∧ pf.blockReason ≠ BlockReason.unspecified) ∨
        (∃ c ∈ gcp.candidates, c.finishReason = FinishReason.safety))) ∧
    (∀ pf, gcp.promptFeedback = some pf → pf.blockReason ≠ BlockReason.unspecified →
      protoToResponse gcp = .error { candidate := none, promptFeedback := some pf }) ∧
    (∀ e, blockedByPrompt gcp = false → protoToResponse gcp = .error e →
      ∃ c, e = { candidate := some c, promptFeedback := none } ∧ c ∈ gcp.candidates ∧
        c.finishReason = FinishReason.safety) := by
  refine ⟨?_, ?_, ?_⟩
  · by_cases hb : blockedByPrompt gcp
    · simp only [protoToResponse, hb, if_true]
      exact ⟨fun _ => .inl ((blockedByPrompt_true_iff gcp).mp hb), fun _ => ⟨_, rfl⟩⟩
    · simp only [protoToResponse, hb, if_false]
      cases hf : findBlockedCandidate gcp.candidates with
      | some c =>
        have hc := findBlockedCandidate_eq_some _ _ hf
        exact ⟨fun _ => .inr ⟨c, hc.1, hc.2⟩, fun _ => ⟨_, rfl⟩⟩
      | none =>
        constructor
        · rintro ⟨e, he⟩
          simp at he
        · rintro (hpf | ⟨c, hc, hsafe⟩)
          · exact absurd ((blockedByPrompt_true_iff gcp).mpr hpf) hb
          · exact absurd hsafe ((findBlockedCandidate_eq_none_iff _).mp hf c hc)
  · intro pf hpf hne
    have hb : blockedByPrompt gcp = true :=
      (blockedByPrompt_true_iff gcp).mpr ⟨pf, hpf, hne⟩
    simp [protoToResponse, hb, hpf]
  · intro e hb he
    simp only [protoToResponse, hb, Bool.false_eq_true, if_false] at he
    cases hf : findBlockedCandidate gcp.candidates with
    | some c =>
      have hc := findBlockedCandidate_eq_some _ _ hf
      rw [hf] at he
      exact ⟨c, by injection he with h; exact h.symm, hc.1, hc.2⟩
    | none => rw [hf] at he; simp at he

/-- Witness: a response whose prompt feedback carries `BlockReasonSafety` is
turned into a `BlockedError` carrying that feedback. -/
theorem protoToResponse_blocked_iff_witness :
    protoToResponse
        { candidates := [],
          promptFeedback := some { blockReason := BlockReason.safety, safetyRatings := [] },
          usageMetadata := none } =
      .error { candidate := none,
               promptFeedback := some { blockReason := BlockReason.safety, safetyRatings := [] } } :=
  (protoToResponse_blocked_iff _).2.1 _ rfl (by decide)

/-- C10: decoding a wire part whose variant is in the declared union but is
neither `Text` nor inline data — here a `FileData` — hits the `default` branch
of `partFromProto`'s type switch and panics (embedded as `none`, no value and
no error); the decode succeeds exactly on the `Text` and `InlineData`
variants. -/
theorem partFromProto_panics_outside_text_blob :
    (partFromProto (.fileData "video/mp4" "https://example.com/vid") = none) ∧
    (∀ w : PBPartData, (partFromProto w).isSome = true ↔
      ((∃ s, w = .text s) ∨ (∃ m d, w = .inlineData m d))) := by
  refine ⟨rfl, fun w => ?_⟩
  cases w <;> simp [partFromProto]

/-- C7, per-call behavior of `GenerateContentResponseIterator.Next`:
(a) a call returning a partial message reports no error and leaves the session
history untouched; (b) the call observing end-of-stream on a chat session with
a merged response returns the done sentinel (not an error), records `io.EOF`
as the sticky error, and appends the merged candidates to the history as one
new turn; (c) a call returning any error other than the done sentinel leaves
the history untouched; (d) once the sticky error is set the iterator returns
it unchanged without touching any state — so the append of (b) happens at most
on that single end-of-stream call, hence exactly once per consumed stream. -/
theorem iterNext_appends_history_once (st : IterState) :
    (∀ r e st2, iterNext st = ((some r, e), st2) → st2.cs = st.cs ∧ e = none) ∧
    (∀ h m, st.err = none → st.stream = [] → st.cs = some h → st.merged = some m →
      iterNext st = ((none, some .done),
        { st with err := some .eof, cs := some (addToHistory h m.candidates) })) ∧
    (∀ o e st2, iterNext st = ((o, some e), st2) → e ≠ .done → st2.cs = st.cs) ∧
    (∀ e, st.err = some e → iterNext st = ((none, some e), st)) := by
  refine ⟨?_, ?_, ?_, ?_⟩
  · intro r e st2 heq
    cases herr : st.err with
    | some e0 => simp [iterNext, herr] at heq
    | none =>
      cases hs : st.stream with
      | nil =>
        simp only [iterNext, herr, hs] at heq
        cases hcs : st.cs <;> cases hm : st.merged <;> simp [hcs, hm] at heq
      | cons ev rest =>
        cases ev with
        | recvErr code => simp [iterNext, herr, hs] at heq
        | msg resp =>
          cases hp : protoToResponse resp with
          | error b => simp [iterNext, herr, hs, hp] at heq
          | ok gcp =>
            simp only [iterNext, herr, hs, hp] at heq
            cases heq
            exact ⟨rfl, rfl⟩
  · intro h m herr hs hcs hm
    simp [iterNext, herr, hs, hcs, hm]
  · intro o e st2 heq hne
    cases herr : st.err with
    | some e0 =>
      simp only [iterNext, herr] at heq
      cases heq
      rfl
    | none =>
      cases hs : st.stream with
      | nil =>
        simp only [iterNext, herr, hs] at heq
        cases hcs : st.cs <;> cases hm : st.merged <;>
          · simp only [hcs, hm] at heq
            cases heq
            exact absurd rfl hne
      | cons ev rest =>
        cases ev with
        | recvErr code =>
          simp only [iterNext, herr, hs] at heq
          cases heq
          rfl
        | msg resp =>
          cases hp : protoToResponse resp with
          | error b =>
            simp only [iterNext, herr, hs, hp] at heq
            cases heq
            rfl
          | ok gcp =>
            simp only [iterNext, herr, hs, hp] at heq
            cases heq
  · intro e herr
    simp [iterNext, herr]

/-- Witness: on a fresh end-of-stream state belonging to a chat session with
an empty history, `Next` returns the done sentinel and appends the merged
response's candidates as the single turn of the history. -/
theorem iterNext_appends_history_once_witness :
    iterNext { stream := [], err := none,
               merged := some { candidates := [{ index := 0, content := none,
                                                 finishReason := .stop, safetyRatings := [],
                                                 citationMetadata := none }],
                                promptFeedback := none, usageMetadata := none },
               cs := some [] } =
      ((none, some .done),
        { stream := [], err := some .eof,
          merged := some { candidates := [{ index := 0, content := none,
                                            finishReason := .stop, safetyRatings := [],
                                            citationMetadata := none }],
                           promptFeedback := none, usageMetadata := none },
          cs := some [[{ index := 0, content := none, finishReason := .stop,
                         safetyRatings := [], citationMetadata := none }]] }) :=
  (iterNext_appends_history_once
      { stream := [], err := none,
        merged := some { candidates := [{ index := 0, content := none,
                                          finishReason := .stop, safetyRatings := [],
                                          citationMetadata := none }],
                         promptFeedback := none, usageMetadata := none },
        cs := some [] }).2.1 []
    { candidates := [{ index := 0, content := none, finishReason := .stop,
                       safetyRatings := [], citationMetadata := none }],
      promptFeedback := none, usageMetadata := none } rfl rfl rfl rfl

end Genai

namespace Gensupport

/-- C8: `WrapError` wraps any error carrying a structured service-side payload
— a `googleapi.Error` whose body parses into reason/domain details — into the
same error now wrapping the normalized `apierror.APIError` preserving that
detail, and returns every error lacking such a payload completely unchanged. -/
theorem wrapError_normalizes (err : SupportError) :
    (∀ herr info, err = .googleapi herr → herr.details = some info →
      WrapError err = .googleapi (herr.wrap { info := info })) ∧
    ((apierrorParseError err = none ∨ asGoogleapiError err = none) →
      WrapError err = err) := by
  constructor
  · rintro herr info rfl hd
    simp [WrapError, apierrorParseError, asGoogleapiError, hd, GoogleapiError.wrap]
  · intro h
    cases err with
    | googleapi herr =>
      rcases h with h | h
      · simp only [apierrorParseError, Option.map_eq_none] at h
        simp [WrapError, apierrorParseError, h]
      · simp [asGoogleapiError] at h
    | grpcStatus code info =>
      cases info <;> simp [WrapError, apierrorParseError, asGoogleapiError]
    | plain msg => simp [WrapError, apierrorParseError, asGoogleapiError]

/-- Witness: a `googleapi.Error` whose body parses into reason/domain details
comes back wrapping the normalized `APIError` with that same detail, and a
plain error comes back unchanged. -/
theorem wrapError_normalizes_witness :
    WrapError (.googleapi { code := 404, message := "m",
                            details := some { reason := "just because", domain := "tests" },
                            wrappedAPIError := none }) =
      .googleapi { code := 404, message := "m",
                   details := some { reason := "just because", domain := "tests" },
                   wrappedAPIError :=
                     some { info := { reason := "just because", domain := "tests" } } } :=
  (wrapError_normalizes _).1 _ _ rfl rfl

/-- C9: dispatching with an already-canceled context makes the retry loop
return the cancellation outcome — not exhaustion and not a transport failure —
with zero transport attempts performed, whatever the transport behavior,
backoff policy and (positive) fuel; the function is pure, so every run is
identical. -/
theorem sendRequestWithRetry_canceled_zero_attempts
    (transport : Nat → AttemptOutcome) (pause : Nat → Option Nat) (fuel : Nat)
    (h : 0 < fuel) :
    sendRequestWithRetry true transport pause 0 fuel = (.canceled, 0) := by
  cases fuel with
  | zero => exact absurd h (by decide)
  | succ n => simp [sendRequestWithRetry]

/-- Witness: with a transport that always fails retryably and a zero-delay
backoff policy, a pre-canceled context still yields the cancellation outcome
with zero attempts. -/
theorem sendRequestWithRetry_canceled_zero_attempts_witness :
    sendRequestWithRetry true (fun _ => .retryable 500) (fun _ => some 0) 0 5 =
      (.canceled, 0) :=
  sendRequestWithRetry_canceled_zero_attempts _ _ 5 (by decide)

end Gensupport


namespace Genai

/-! ## Text-run collapsing (`mergeTexts` as used by `joinParts`) -/

/-- Whether a part list begins with a `Text` part. -/
def headIsText : List Part → Bool
  | .text _ :: _ => true
  | _ => false

theorem headIsText_cons (p : Part) (l : List Part) : headIsText (p :: l) = p.isText := by
  cases p <;> rfl

theorem takeTexts_of_head_not_text :
    ∀ l : List Part, headIsText l = false → takeTexts l = ([], l)
  | [], _ => rfl
  | .text _ :: _, h => by simp [headIsText] at h
  | .blob _ :: _, _ => rfl
  | .fileData _ :: _, _ => rfl
  | .functionCall _ :: _, _ => rfl
  | .functionResponse _ _ :: _, _ => rfl
  | .executableCode _ _ :: _, _ => rfl
  | .codeExecutionResult _ _ :: _, _ => rfl

theorem takeTexts_runs (ts : List String) (rest : List Part) (h : headIsText rest = false) :
    takeTexts (ts.map Part.text ++ rest) = (ts, rest) := by
  induction ts with
  | nil => simpa using takeTexts_of_head_not_text rest h
  | cons t ts ih => simp [takeTexts, ih]

theorem mergeTexts_nil : mergeTexts [] = [] := by
  rw [mergeTexts]

theorem mergeTexts_cons_text (t : String) (rest : List Part) :
    mergeTexts (Part.text t :: rest) =
      Part.text (String.join (t :: (takeTexts rest).1)) :: mergeTexts (takeTexts rest).2 := by
  rw [mergeTexts]

theorem mergeTexts_cons_of_not_text (p : Part) (rest : List Part) (h : p.isText = false) :
    mergeTexts (p :: rest) = p :: mergeTexts rest := by
  cases p with
  | text s => simp [Part.isText] at h
  | blob b => rw [mergeTexts]; intro t ht; cases ht
  | fileData f => rw [mergeTexts]; intro t ht; cases ht
  | functionCall f => rw [mergeTexts]; intro t ht; cases ht
  | functionResponse n r => rw [mergeTexts]; intro t ht; cases ht
  | executableCode lg c => rw [mergeTexts]; intro t ht; cases ht
  | codeExecutionResult o c => rw [mergeTexts]; intro t ht; cases ht

/-- No two adjacent parts of the list are both `Text`. -/
def noAdjacentTexts : List Part → Bool
  | p :: q :: rest => !(p.isText && q.isText) && noAdjacentTexts (q :: rest)
  | _ => true

theorem noAdjacentTexts_cons (p : Part) (l : List Part) (hp : p.isText = false)
    (h : noAdjacentTexts l = true) : noAdjacentTexts (p :: l) = true := by
  cases l with
  | nil => rfl
  | cons q M =>
    show (!(p.isText && q.isText) && noAdjacentTexts (q :: M)) = true
    rw [hp, h]
    rfl

theorem noAdjacentTexts_cons_text (s : String) (l : List Part) (hl : headIsText l = false)
    (h : noAdjacentTexts l = true) : noAdjacentTexts (Part.text s :: l) = true := by
  cases l with
  | nil => rfl
  | cons q M =>
    rw [headIsText_cons] at hl
    show (!((Part.text s).isText && q.isText) && noAdjacentTexts (q :: M)) = true
    rw [hl, h]
    rfl

theorem takeTexts_snd_head : ∀ l : List Part, headIsText (takeTexts l).2 = false
  | [] => rfl
  | .text _ :: rest => by simpa [takeTexts] using takeTexts_snd_head rest
  | .blob _ :: _ => rfl
  | .fileData _ :: _ => rfl
  | .functionCall _ :: _ => rfl
  | .functionResponse _ _ :: _ => rfl
  | .executableCode _ _ :: _ => rfl
  | .codeExecutionResult _ _ :: _ => rfl

theorem mergeTexts_head_not_text (l : List Part) (h : headIsText l = false) :
    headIsText (mergeTexts l) = false := by
  cases l with
  | nil => rw [mergeTexts_nil]; rfl
  | cons p rest =>
    rw [headIsText_cons] at h
    rw [mergeTexts_cons_of_not_text p rest h, headIsText_cons]
    exact h

theorem noAdjacentTexts_mergeTexts : ∀ l : List Part, noAdjacentTexts (mergeTexts l) = true
  | [] => by rw [mergeTexts_nil]; rfl
  | .text t :: rest => by
    rw [mergeTexts_cons_text]
    exact noAdjacentTexts_cons_text _ _
      (mergeTexts_head_not_text _ (takeTexts_snd_head rest))
      (noAdjacentTexts_mergeTexts (takeTexts rest).2)
  | .blob b :: rest => by
    rw [mergeTexts_cons_of_not_text (Part.blob b) rest rfl]
    exact noAdjacentTexts_cons _ _ rfl (noAdjacentTexts_mergeTexts rest)
  | .fileData f :: rest => by
    rw [mergeTexts_cons_of_not_text (Part.fileData f) rest rfl]
    exact noAdjacentTexts_cons _ _ rfl (noAdjacentTexts_mergeTexts rest)
  | .functionCall f :: rest => by
    rw [mergeTexts_cons_of_not_text (Part.functionCall f) rest rfl]
    exact noAdjacentTexts_cons _ _ rfl (noAdjacentTexts_mergeTexts rest)
  | .functionResponse n r :: rest => by
    rw [mergeTexts_cons_of_not_text (Part.functionResponse n r) rest rfl]
    exact noAdjacentTexts_cons _ _ rfl (noAdjacentTexts_mergeTexts rest)
  | .executableCode lg c :: rest => by
    rw [mergeTexts_cons_of_not_text (Part.executableCode lg c) rest rfl]
    exact noAdjacentTexts_cons _ _ rfl (noAdjacentTexts_mergeTexts rest)
  | .codeExecutionResult o c :: rest => by
    rw [mergeTexts_cons_of_not_text (Part.codeExecutionResult o c) rest rfl]
    exact noAdjacentTexts_cons _ _ rfl (noAdjacentTexts_mergeTexts rest)
termination_by l => l.length
decreasing_by
  · exact Nat.lt_succ_of_le (takeTexts_length rest)
  all_goals simp

theorem join_nil : String.join [] = "" := rfl

theorem join_cons (a : String) (l : List String) :
    String.join (a :: l) = a ++ String.join l := by
  apply String.ext
  simp [String.join_eq, String.data_append]

/-- C3: in any part-list concatenation handed to `joinParts`/`mergeTexts`,
a maximal run of adjacent `Text` parts collapses into a single `Text` part
holding the in-order concatenation of the run, every non-`Text` part is copied
through in place (so it is a barrier no text is joined across), the output
never has two adjacent `Text` parts, and in particular a list ending in
`Text "a"` merged with one beginning `Text "b"` yields the single part
`Text "ab"` while `Text, Text, Blob, Text` merges to
`Text (concat), Blob, Text`. -/
theorem mergeTexts_collapses_text_runs :
    (∀ (ts : List String) (rest : List Part), ts ≠ [] → headIsText rest = false →
      mergeTexts (ts.map Part.text ++ rest) =
        Part.text (String.join ts) :: mergeTexts rest) ∧
    (∀ (p : Part) (rest : List Part), p.isText = false →
      mergeTexts (p :: rest) = p :: mergeTexts rest) ∧
    (∀ l : List Part, noAdjacentTexts (mergeTexts l) = true) ∧
    (joinParts [Part.text "a"] [Part.text "b"] = [Part.text "ab"]) ∧
    (∀ (b : Blob) (t1 t2 t3 : String),
      joinParts [Part.text t1, Part.text t2, Part.blob b] [Part.text t3] =
        [Part.text (t1 ++ t2), Part.blob b, Part.text t3]) := by
  refine ⟨?_, mergeTexts_cons_of_not_text, noAdjacentTexts_mergeTexts, ?_, ?_⟩
  · intro ts rest hts h
    cases ts with
    | nil => exact absurd rfl hts
    | cons t ts =>
      simp only [List.map_cons, List.cons_append]
      rw [mergeTexts_cons_text, takeTexts_runs ts rest h]
  · show mergeTexts [Part.text "a", Part.text "b"] = [Part.text "ab"]
    rw [mergeTexts_cons_text,
      show takeTexts [Part.text "b"] = (["b"], ([] : List Part)) from rfl, mergeTexts_nil]
    decide
  · intro b t1 t2 t3
    show mergeTexts [Part.text t1, Part.text t2, Part.blob b, Part.text t3] =
      [Part.text (t1 ++ t2), Part.blob b, Part.text t3]
    rw [mergeTexts_cons_text,
      show takeTexts [Part.text t2, Part.blob b, Part.text t3] =
        ([t2], [Part.blob b, Part.text t3]) from rfl]
    rw [mergeTexts_cons_of_not_text (Part.blob b) [Part.text t3] rfl]
    rw [mergeTexts_cons_text, show takeTexts ([] : List Part) = (([] : List String), ([] : List Part)) from rfl,
      mergeTexts_nil]
    rw [join_cons, join_cons, join_nil, join_cons, join_nil, String.append_empty,
      String.append_empty]

/-- Witness: the run `Text "a", Text "b"` before a blob barrier collapses to
the single part `Text "ab"`. -/
theorem mergeTexts_collapses_text_runs_witness :
    mergeTexts [Part.text "a", Part.text "b", Part.blob { mimeType := "m", data := [] }] =
      Part.text (String.join ["a", "b"]) ::
        mergeTexts [Part.blob { mimeType := "m", data := [] }] :=
  mergeTexts_collapses_text_runs.1 ["a", "b"]
    [Part.blob { mimeType := "m", data := [] }] (by decide) rfl

end Genai

namespace Genai

/-! ## Associativity of the merge on candidate text -/

/-- The text a part contributes to the candidate's cumulative text. -/
def partText : Part → String
  | .text s => s
  | _ => ""

/-- The in-order concatenation of the `Text` parts of a part list. -/
def textOfParts (l : List Part) : String :=
  String.join (l.map partText)

/-- The cumulative text of an optional `Content` (nil contributes nothing). -/
def contentText : Option Content → String
  | none => ""
  | some c => textOfParts c.parts

/-- The cumulative `Content` text of one candidate. -/
def candText (c : Candidate) : String :=
  contentText c.content

/-- The per-destination-candidate body of `joinCandidateLists`. -/
def mergeWithSrc (src : List Candidate) (d : Candidate) : Candidate :=
  match indexToSrcCandidate src d.index with
  | some s => joinCandidate d s
  | none => d

theorem joinCandidateLists_eq_map (dest src : List Candidate) :
    joinCandidateLists dest src = dest.map (mergeWithSrc src) := rfl

theorem textOfParts_cons (p : Part) (l : List Part) :
    textOfParts (p :: l) = partText p ++ textOfParts l := by
  simp [textOfParts, join_cons]

theorem textOfParts_append (l1 l2 : List Part) :
    textOfParts (l1 ++ l2) = textOfParts l1 ++ textOfParts l2 := by
  apply String.ext
  simp [textOfParts, String.join_eq, String.data_append]

theorem takeTexts_textOf : ∀ l : List Part,
    String.join (takeTexts l).1 ++ textOfParts (takeTexts l).2 = textOfParts l
  | [] => by simp [takeTexts, join_nil, String.empty_append]
  | .text t :: rest => by
    have ih := takeTexts_textOf rest
    simp only [takeTexts, join_cons, String.append_assoc, ih, textOfParts_cons, partText]
  | .blob _ :: _ => by simp [takeTexts, join_nil, String.empty_append]
  | .fileData _ :: _ => by simp [takeTexts, join_nil, String.empty_append]
  | .functionCall _ :: _ => by simp [takeTexts, join_nil, String.empty_append]
  | .functionResponse _ _ :: _ => by simp [takeTexts, join_nil, String.empty_append]
  | .executableCode _ _ :: _ => by simp [takeTexts, join_nil, String.empty_append]
  | .codeExecutionResult _ _ :: _ => by simp [takeTexts, join_nil, String.empty_append]

theorem partText_of_not_text (p : Part) (h : p.isText = false) : partText p = "" := by
  cases p with
  | text s => simp [Part.isText] at h
  | blob b => rfl
  | fileData f => rfl
  | functionCall f => rfl
  | functionResponse n r => rfl
  | executableCode lg c => rfl
  | codeExecutionResult o c => rfl

theorem textOfParts_mergeTexts : ∀ l : List Part, textOfParts (mergeTexts l) = textOfParts l
  | [] => by rw [mergeTexts_nil]
  | .text t :: rest => by
    rw [mergeTexts_cons_text, textOfParts_cons,
      textOfParts_mergeTexts (takeTexts rest).2]
    show String.join (t :: (takeTexts rest).1) ++ textOfParts (takeTexts rest).2 =
      textOfParts (Part.text t :: rest)
    rw [join_cons, String.append_assoc, takeTexts_textOf rest, textOfParts_cons]
    rfl
  | .blob b :: rest => by
    rw [mergeTexts_cons_of_not_text (Part.blob b) rest rfl, textOfParts_cons,
      textOfParts_cons, textOfParts_mergeTexts rest]
  | .fileData f :: rest => by
    rw [mergeTexts_cons_of_not_text (Part.fileData f) rest rfl, textOfParts_cons,
      textOfParts_cons, textOfParts_mergeTexts rest]
  | .functionCall f :: rest => by
    rw [mergeTexts_cons_of_not_text (Part.functionCall f) rest rfl, textOfParts_cons,
      textOfParts_cons, textOfParts_mergeTexts rest]
  | .functionResponse n r :: rest => by
    rw [mergeTexts_cons_of_not_text (Part.functionResponse n r) rest rfl, textOfParts_cons,
      textOfParts_cons, textOfParts_mergeTexts rest]
  | .executableCode lg c :: rest => by
    rw [mergeTexts_cons_of_not_text (Part.executableCode lg c) rest rfl, textOfParts_cons,
      textOfParts_cons, textOfParts_mergeTexts rest]
  | .codeExecutionResult o c :: rest => by
    rw [mergeTexts_cons_of_not_text (Part.codeExecutionResult o c) rest rfl, textOfParts_cons,
      textOfParts_cons, textOfParts_mergeTexts rest]
termination_by l => l.length
decreasing_by
  · exact Nat.lt_succ_of_le (takeTexts_length rest)
  all_goals simp

theorem contentText_joinContent (a b : Option Content) :
    contentText (joinContent a b) = contentText a ++ contentText b := by
  cases a with
  | none => cases b <;> simp [joinContent, contentText, String.empty_append]
  | some ca =>
    cases b with
    | none => simp [joinContent, contentText, String.append_empty]
    | some cb =>
      show contentText (some { ca with parts := joinParts ca.parts cb.parts }) =
        textOfParts ca.parts ++ textOfParts cb.parts
      simp [contentText, joinParts, textOfParts_mergeTexts, textOfParts_append]

theorem candText_joinCandidate (d s : Candidate) :
    candText (joinCandidate d s) = candText d ++ candText s := by
  simp [candText, joinCandidate, contentText_joinContent]

theorem mergeWithSrc_index (src : List Candidate) (d : Candidate) :
    (mergeWithSrc src d).index = d.index := by
  unfold mergeWithSrc
  cases indexToSrcCandidate src d.index <;> rfl

theorem indexToSrc_foldl_map (f : Candidate → Candidate) (hf : ∀ c, (f c).index = c.index)
    (i : Int) : ∀ (src : List Candidate) (acc : Option Candidate),
    (src.map f).foldl (fun a s => if s.index = i then some s else a) (acc.map f) =
      (src.foldl (fun a s => if s.index = i then some s else a) acc).map f
  | [], acc => rfl
  | s :: rest, acc => by
    simp only [List.map_cons, List.foldl_cons, hf s]
    by_cases h : s.index = i
    · simp only [h, if_true]
      have := indexToSrc_foldl_map f hf i rest (some s)
      simpa using this
    · simp only [h, if_false]
      exact indexToSrc_foldl_map f hf i rest acc

theorem indexToSrcCandidate_map_merge (A B : List Candidate) (i : Int) :
    indexToSrcCandidate (A.map (mergeWithSrc B)) i =
      (indexToSrcCandidate A i).map (mergeWithSrc B) := by
  unfold indexToSrcCandidate
  simpa using indexToSrc_foldl_map (mergeWithSrc B) (mergeWithSrc_index B) i A none

theorem indexToSrc_foldl_isSome : ∀ (src : List Candidate) (acc : Option Candidate) (i : Int),
    acc.isSome = true ∨ i ∈ src.map Candidate.index →
    (src.foldl (fun a c => if c.index = i then some c else a) acc).isSome = true
  | [], acc, i, h => by
    rcases h with h | h
    · simpa using h
    · simp at h
  | c :: rest, acc, i, h => by
    simp only [List.foldl_cons]
    by_cases hc : c.index = i
    · exact indexToSrc_foldl_isSome rest _ i (Or.inl (by simp [hc]))
    · refine indexToSrc_foldl_isSome rest _ i ?_
      rcases h with h | h
      · exact Or.inl (by simp only [hc, if_false]; exact h)
      · simp only [List.map_cons, List.mem_cons] at h
        rcases h with h | h
        · exact absurd h.symm hc
        · exact Or.inr h

theorem indexToSrcCandidate_isSome_of_mem (src : List Candidate) (i : Int)
    (h : i ∈ src.map Candidate.index) : (indexToSrcCandidate src i).isSome = true :=
  indexToSrc_foldl_isSome src none i (Or.inr h)

theorem indexToSrc_foldl_index : ∀ (src : List Candidate) (acc : Option Candidate) (i : Int),
    (∀ a, acc = some a → a.index = i) →
    ∀ s, src.foldl (fun a c => if c.index = i then some c else a) acc = some s → s.index = i
  | [], acc, i, hacc, s, h => hacc s h
  | c :: rest, acc, i, hacc, s, h => by
    simp only [List.foldl_cons] at h
    by_cases hc : c.index = i
    · refine indexToSrc_foldl_index rest _ i ?_ s h
      intro a ha
      rw [if_pos hc] at ha
      injection ha with ha'
      rw [← ha']
      exact hc
    · refine indexToSrc_foldl_index rest _ i ?_ s h
      intro a ha
      rw [if_neg hc] at ha
      exact hacc a ha

theorem indexToSrcCandidate_index_eq (src : List Candidate) (i : Int) (s : Candidate)
    (h : indexToSrcCandidate src i = some s) : s.index = i :=
  indexToSrc_foldl_index src none i (by intro a ha; cases ha) s h

end Genai

namespace Genai

theorem mergeWithSrc_eq_of_lookup (src : List Candidate) (d s : Candidate)
    (h : indexToSrcCandidate src d.index = some s) :
    mergeWithSrc src d = joinCandidate d s := by
  unfold mergeWithSrc
  rw [h]

theorem candText_mergeWithSrc (src : List Candidate) (d : Candidate) :
    candText (mergeWithSrc src d) =
      candText d ++ (indexToSrcCandidate src d.index).elim "" candText := by
  unfold mergeWithSrc
  cases h : indexToSrcCandidate src d.index with
  | none => simp [String.append_empty]
  | some s => simp [candText_joinCandidate]

/-- C6: for three partial messages whose candidate `Index` sets agree,
sequential merging `join(join(m1, m2), m3)` and right-nested merging
`join(m1, join(m2, m3))` produce the same cumulative `Content` text for every
candidate (compared as the list of `(index, text)` pairs). -/
theorem joinResponses_assoc_on_text (m1 m2 m3 : GenerateContentResponse)
    (h12 : ∀ i : Int, i ∈ m1.candidates.map Candidate.index ↔
      i ∈ m2.candidates.map Candidate.index)
    (_h23 : ∀ i : Int, i ∈ m2.candidates.map Candidate.index ↔
      i ∈ m3.candidates.map Candidate.index) :
    (joinResponses (some (joinResponses (some m1) m2)) m3).candidates.map
        (fun c => (c.index, candText c)) =
      (joinResponses (some m1) (joinResponses (some m2) m3)).candidates.map
        (fun c => (c.index, candText c)) := by
  simp only [joinResponses, joinCandidateLists_eq_map, List.map_map]
  apply List.map_congr_left
  intro d hd
  simp only [Function.comp_apply]
  have hmem : d.index ∈ m2.candidates.map Candidate.index :=
    (h12 d.index).mp (List.mem_map_of_mem Candidate.index hd)
  obtain ⟨s, hs⟩ :=
    Option.isSome_iff_exists.mp (indexToSrcCandidate_isSome_of_mem m2.candidates d.index hmem)
  have hsidx : s.index = d.index := indexToSrcCandidate_index_eq _ _ _ hs
  have hL : mergeWithSrc m2.candidates d = joinCandidate d s :=
    mergeWithSrc_eq_of_lookup m2.candidates d s hs
  have hR : mergeWithSrc (m2.candidates.map (mergeWithSrc m3.candidates)) d =
      joinCandidate d (mergeWithSrc m3.candidates s) :=
    mergeWithSrc_eq_of_lookup _ d (mergeWithSrc m3.candidates s)
      (by simp [indexToSrcCandidate_map_merge, hs])
  rw [hL, hR]
  simp only [Prod.mk.injEq]
  refine ⟨?_, ?_⟩
  · rw [mergeWithSrc_index]
    rfl
  · rw [candText_mergeWithSrc, candText_joinCandidate, candText_joinCandidate,
      candText_mergeWithSrc, hsidx,
      show (joinCandidate d s).index = d.index from rfl, String.append_assoc]

/-- Witness: three single-candidate messages with texts "a", "b", "c" and the
same index merge to text "abc" under either association. -/
theorem joinResponses_assoc_on_text_witness :
    (joinResponses
          (some (joinResponses
            (some { candidates := [{ index := 0,
                                     content := some { role := "model", parts := [Part.text "a"] },
                                     finishReason := .stop, safetyRatings := [],
                                     citationMetadata := none }],
                    promptFeedback := none, usageMetadata := none })
            { candidates := [{ index := 0,
                               content := some { role := "model", parts := [Part.text "b"] },
                               finishReason := .stop, safetyRatings := [],
                               citationMetadata := none }],
              promptFeedback := none, usageMetadata := none }))
          { candidates := [{ index := 0,
                             content := some { role := "model", parts := [Part.text "c"] },
                             finishReason := .stop, safetyRatings := [],
                             citationMetadata := none }],
            promptFeedback := none, usageMetadata := none }).candidates.map
        (fun c => (c.index, candText c)) =
      (joinResponses
          (some { candidates := [{ index := 0,
                                   content := some { role := "model", parts := [Part.text "a"] },
                                   finishReason := .stop, safetyRatings := [],
                                   citationMetadata := none }],
                  promptFeedback := none, usageMetadata := none })
          (joinResponses
            (some { candidates := [{ index := 0,
                                     content := some { role := "model", parts := [Part.text "b"] },
                                     finishReason := .stop, safetyRatings := [],
                                     citationMetadata := none }],
                    promptFeedback := none, usageMetadata := none })
            { candidates := [{ index := 0,
                               content := some { role := "model", parts := [Part.text "c"] },
                               finishReason := .stop, safetyRatings := [],
                               citationMetadata := none }],
              promptFeedback := none, usageMetadata := none })).candidates.map
        (fun c => (c.index, candText c)) :=
  joinResponses_assoc_on_text _ _ _ (fun _ => Iff.rfl) (fun _ => Iff.rfl)

end Genai
